import Mathlib

/-!
Verification development for the MyCache repository (MyLruCache.h, MyLfuCache.h,
MyCachePolicy.h): a shallow embedding of the LRU engine, the K-promotion LRU
wrapper, the hash-sharded cache and the LFU engine, with theorems settling the
spec claims against the code.

Embedding conventions, stated once here:
* Nodes are identified by their key (the index maps of the source never hold two
  nodes with the same key), so doubly linked lists become Lean lists of keys or
  of key/value pairs, ordered from the entry after the head sentinel (least
  recent / bucket front) to the entry before the tail sentinel.
* unordered_map becomes an association list; operator[] insertion of a fresh
  entry is modelled as appending at the end (the map's iteration order only
  matters where noted).
* Machine integers (int, size_t) are modelled as Int/Nat; the one place where a
  signed/unsigned conversion is observable (curTotalNum_ / nodeMap_.size()) is
  modelled bit-precisely in cppAvg below.
* Code paths that dereference a null pointer in the source are modelled by
  returning none (the whole operation "crashes").
* The source of MyLruCache.h line 133 reads "dummyTail_ - prev_ = node;",
  which does not compile; the evident intent (and the only reading consistent
  with the author's comments) is "dummyTail_->prev_ = node;", and that is what
  is embedded.  Likewise line 145 declares "nodeptr& node" with a typo'd type
  name; it is embedded as a plain value binding of the evicted front node,
  matching the function's own comment (pop dummyHead_->next and erase it from
  nodeMap_).
-/

namespace MyCache

/-- Lookup in an association list: the first pair whose key matches, as
unordered_map::find does on the (unique-keyed) maps of the source. -/
def lookupAssoc {α β : Type} [DecidableEq α] : List (α × β) → α → Option β
  | [], _ => none
  | (a, b) :: t, k => if a = k then some b else lookupAssoc t k

/-- Erase every pair with the given key (the maps of the source hold at most
one, so this is unordered_map::erase). -/
def eraseAssoc {α β : Type} [DecidableEq α] : List (α × β) → α → List (α × β)
  | [], _ => []
  | (a, b) :: t, k => if a = k then eraseAssoc t k else (a, b) :: eraseAssoc t k

/-- Replace the value stored under a key, leaving other pairs unchanged
(writing through a pointer obtained from the map). -/
def updateAssoc {α β : Type} [DecidableEq α] : List (α × β) → α → β → List (α × β)
  | [], _, _ => []
  | (a, b) :: t, k, v => if a = k then (k, v) :: updateAssoc t k v else (a, b) :: updateAssoc t k v

/-! ## LRU engine (MyLruCache) -/

/-- State of a MyLruCache instance: capacity_, the recency list between the two
sentinels (head side = least recently used) and nodeMap_.  The list and the map
of the source share nodes, so a value update through the node is reflected in
both components here. -/
structure LruState (Key Value : Type) where
  capacity : Int
  list : List (Key × Value)
  map : List (Key × Value)
deriving DecidableEq

/-- A freshly constructed MyLruCache(capacity): empty list between the
sentinels, empty nodeMap_. -/
def lruInit {Key Value : Type} (c : Int) : LruState Key Value := ⟨c, [], []⟩

/-- MyLruCache::evictLeastRecent — pop dummyHead_->next_ and erase its key from
nodeMap_.  An empty list would make the source unlink a sentinel; every caller
establishes nonemptiness, and the empty case is the identity here. -/
def evictLeastRecent {Key Value : Type} [DecidableEq Key] (s : LruState Key Value) :
    LruState Key Value :=
  match s.list with
  | [] => s
  | (k0, _) :: rest => { s with list := rest, map := eraseAssoc s.map k0 }

/-- MyLruCache::put — early return on capacity_ < 0 (note: the source tests
< 0, not <= 0); on an existing key update the node's value and move it to the
most-recent end; otherwise insert at the most-recent end, record in the map,
and evict the least recent entry if the map has grown past capacity. -/
def lruPut {Key Value : Type} [DecidableEq Key] (k : Key) (v : Value)
    (s : LruState Key Value) : LruState Key Value :=
  if s.capacity < 0 then s
  else
    match lookupAssoc s.map k with
    | some _ => { s with map := updateAssoc s.map k v, list := eraseAssoc s.list k ++ [(k, v)] }
    | none =>
        let s1 : LruState Key Value :=
          { s with list := s.list ++ [(k, v)], map := s.map ++ [(k, v)] }
        if (s1.map.length : Int) > s1.capacity then evictLeastRecent s1 else s1

/-- MyLruCache::get (bool form) — on a hit move the node to the most-recent end
and return its value; on a miss return not-found and leave the state alone.
The source's one-argument Value get returns the found value or a
value-initialized Value; the Option result here is that observable. -/
def lruGet {Key Value : Type} [DecidableEq Key] (k : Key) (s : LruState Key Value) :
    Option Value × LruState Key Value :=
  match lookupAssoc s.map k with
  | some v => (some v, { s with list := eraseAssoc s.list k ++ [(k, v)] })
  | none => (none, s)

/-- One public LRU call. -/
inductive LruOp (Key Value : Type) where
  | put : Key → Value → LruOp Key Value
  | get : Key → LruOp Key Value

/-- Apply one public LRU call to the state. -/
def lruStep {Key Value : Type} [DecidableEq Key] :
    LruOp Key Value → LruState Key Value → LruState Key Value
  | .put k v, s => lruPut k v s
  | .get k, s => (lruGet k s).2

/-- Run a sequence of public LRU calls. -/
def lruRun {Key Value : Type} [DecidableEq Key] :
    List (LruOp Key Value) → LruState Key Value → LruState Key Value
  | [], s => s
  | op :: ops, s => lruRun ops (lruStep op s)

/-! ## K-promotion wrapper (MyKLruCache)

The source of MyKLruCache is specialized here at Value = String, because its
put compares the main cache's one-argument get result against the string
literal "", which only compiles for string-like Value. -/

/-- The empty string the source compares against. -/
def emptyStr : String := ""

/-- State of a MyKLruCache instance: the base-class main MyLruCache, the
historyList_ (an LRU of access counts) and the threshold k_. -/
structure KLruState (Key : Type) where
  main : LruState Key String
  history : LruState Key Nat
  k : Int
deriving DecidableEq

/-- MyKLruCache(capacity, historyCapacity, k). -/
def klruInit {Key : Type} (c hc kk : Int) : KLruState Key := ⟨lruInit c, lruInit hc, kk⟩

/-- Erase a key from an LRU engine's list and map.  The source line
"historyList_->removeNode(key);" does not match any member (removeNode takes a
node pointer and does not erase the map entry); the evident intent, and the
spec's reading, is removal of the key's history record, embedded here. -/
def lruEraseKey {Key Value : Type} [DecidableEq Key] (k : Key) (s : LruState Key Value) :
    LruState Key Value :=
  { s with list := eraseAssoc s.list k, map := eraseAssoc s.map k }

/-- MyKLruCache::put — first, if the main cache's one-argument get returns a
non-empty value (a recency-mutating lookup), re-put into main; then read the
history count (0 when absent; this lookup also mutates history recency),
pre-increment it, write it back, and if the incremented count reaches k_,
drop the history record and put the value into main. -/
def klruPut {Key : Type} [DecidableEq Key] (k : Key) (v : String) (s : KLruState Key) :
    KLruState Key :=
  let p0 := lruGet k s.main
  let main1 := if p0.1.getD emptyStr ≠ emptyStr then lruPut k v p0.2 else p0.2
  let ph := lruGet k s.history
  let cnt : Nat := ph.1.getD 0 + 1
  let hist1 := lruPut k cnt ph.2
  if (cnt : Int) ≥ s.k then
    { main := lruPut k v main1, history := lruEraseKey k hist1, k := s.k }
  else
    { main := main1, history := hist1, k := s.k }

/-- MyKLruCache::get — read the history count (mutating history recency).  If
it already reaches k_, drop the history record and put into main; the source
references an undefined local for the value there, embedded as the
value-initialized "".  Otherwise write back the incremented count.  Finally
return the main cache's (recency-mutating) lookup. -/
def klruGet {Key : Type} [DecidableEq Key] (k : Key) (s : KLruState Key) :
    Option String × KLruState Key :=
  let ph := lruGet k s.history
  let cnt : Nat := ph.1.getD 0
  if (cnt : Int) ≥ s.k then
    let hist1 := lruEraseKey k ph.2
    let main1 := lruPut k emptyStr s.main
    let pm := lruGet k main1
    (pm.1, { main := pm.2, history := hist1, k := s.k })
  else
    let hist1 := lruPut k (cnt + 1) ph.2
    let pm := lruGet k s.main
    (pm.1, { main := pm.2, history := hist1, k := s.k })

/-! ## Hash-sharded cache (MyHashLru) -/

/-- State of a MyHashLru instance: the vector of per-shard MyKLruCache
instances; sliceNum_ is its length. -/
structure HashLruState (Key : Type) where
  shards : List (KLruState Key)
deriving DecidableEq

/-- The shard index computation of MyHashLru::put and MyHashLru::get:
Hash(key) % sliceNum_, with Hash a fixed deterministic function supplied by
std::hash. -/
def hashRoute {Key : Type} (h : Key → Nat) (n : Nat) (k : Key) : Nat := h k % n

/-- MyHashLru::put — compute the shard index from the key's hash and forward
the call unchanged to that shard's MyKLruCache::put.  An out-of-range index
(impossible while 0 < sliceNum_) would be undefined behavior in the source and
is the identity here. -/
def hashPut {Key : Type} [DecidableEq Key] (h : Key → Nat) (k : Key) (v : String)
    (s : HashLruState Key) : HashLruState Key :=
  let i := hashRoute h s.shards.length k
  match s.shards.get? i with
  | some shard => ⟨s.shards.set i (klruPut k v shard)⟩
  | none => s

/-- MyHashLru::get (bool form) — compute the shard index from the key's hash
and forward to that shard.  MyKLruCache does not override the two-argument
get, so the call resolves to the shard's base-class MyLruCache::get on its
main cache (a recency-mutating lookup). -/
def hashGet {Key : Type} [DecidableEq Key] (h : Key → Nat) (k : Key)
    (s : HashLruState Key) : Option String × HashLruState Key :=
  let i := hashRoute h s.shards.length k
  match s.shards.get? i with
  | some shard =>
      let pm := lruGet k shard.main
      (pm.1, ⟨s.shards.set i { shard with main := pm.2 }⟩)
  | none => (none, s)

/-! ## LFU engine (MyLfuCache)

Freqlist nodes are identified by their key; a bucket is the list of keys
between that Freqlist's sentinels, front (head_->next) first.  freqToFreqList_
maps a frequency to its bucket; a missing entry models a frequency for which
no Freqlist was ever allocated — operator[] on it materializes a null
Freqlist pointer, so any member call through it crashes (modelled as none). -/

/-- State of a MyLfuCache instance.  curTotalNum_ is never initialized by the
constructor; it is modelled as starting at 0 (the value every further
computation in the source implicitly assumes). -/
structure LfuState (Key Value : Type) where
  capacity : Int
  maxAverageNum : Int
  minFreq : Int
  curAverageNum : Int
  curTotalNum : Int
  nodeMap : List (Key × Int × Value)
  freqToFreqList : List (Int × List Key)
deriving DecidableEq

/-- MyLfuCache(capacity, maxAverageNum): minFreq_ starts at the INT8_MAX
sentinel (127), curAverageNum_ at 0. -/
def lfuInit {Key Value : Type} (c m : Int) : LfuState Key Value := ⟨c, m, 127, 0, 0, [], []⟩

/-- curTotalNum_ / nodeMap_.size() in the source divides an int by a size_t:
the int is converted to 64-bit unsigned (two's-complement wrap), the unsigned
quotient is taken, and the result is assigned back to a 32-bit int (wrapping).
For 0 <= t < 2^31 this is plain truncating division. -/
def cppAvg (t : Int) (len : Nat) : Int :=
  let tU : Nat := (t % (2 ^ 64 : Int)).toNat
  let q : Nat := tU / len
  let r : Nat := q % 2 ^ 32
  if r < 2 ^ 31 then (r : Int) else (r : Int) - 2 ^ 32

/-- Freqlist::remove through freqToFreqList_[freq]: a missing bucket yields a
null Freqlist (crash); otherwise unlink the node from that bucket (a no-op if
it is not linked there, matching remove's null-neighbor guard). -/
def removeFromFreqList {Key : Type} [DecidableEq Key] (b : List (Int × List Key))
    (k : Key) (f : Int) : Option (List (Int × List Key)) :=
  match lookupAssoc b f with
  | none => none
  | some l => some (updateAssoc b f (l.filter (fun x => decide (x ≠ k))))

/-- MyLfuCache::addToFreqList — create the bucket on first use, then append
the node at the back (before the tail sentinel). -/
def addToFreqList {Key : Type} [DecidableEq Key] (b : List (Int × List Key))
    (k : Key) (f : Int) : List (Int × List Key) :=
  match lookupAssoc b f with
  | some l => updateAssoc b f (l ++ [k])
  | none => b ++ [(f, [k])]

/-- node->freq assignment through the map's node pointer. -/
def setNodeFreq {Key Value : Type} [DecidableEq Key] :
    List (Key × Int × Value) → Key → Int → List (Key × Int × Value)
  | [], _, _ => []
  | (a, p) :: t, k, f => (if a = k then (a, f, p.2) else (a, p)) :: setNodeFreq t k f

/-- node->value assignment through the map's node pointer. -/
def setNodeValue {Key Value : Type} [DecidableEq Key] :
    List (Key × Int × Value) → Key → Value → List (Key × Int × Value)
  | [], _, _ => []
  | (a, p) :: t, k, v => (if a = k then (a, p.1, v) else (a, p)) :: setNodeValue t k v

/-- The frequency an entry ends with in one pass of
MyLfuCache::handleOverMaxAverageNum: freq - maxAverageNum_/2 (truncating int
division), then raised to 1 if below. -/
def clampFreq (maxAvg f : Int) : Int :=
  let f1 := f - Int.tdiv maxAvg 2
  if f1 < 1 then 1 else f1

/-- The entry loop of MyLfuCache::handleOverMaxAverageNum: each live node is
removed from its current bucket, its frequency reduced and clamped, and the
node appended to the bucket of the new frequency, threading the bucket map
through the iteration. -/
def rebalanceEntries {Key Value : Type} [DecidableEq Key] (maxAvg : Int) :
    List (Key × Int × Value) → List (Int × List Key) →
      Option (List (Key × Int × Value) × List (Int × List Key))
  | [], b => some ([], b)
  | (k, f, v) :: rest, b =>
      match removeFromFreqList b k f with
      | none => none
      | some b1 =>
          let f2 := clampFreq maxAvg f
          let b2 := addToFreqList b1 k f2
          match rebalanceEntries maxAvg rest b2 with
          | none => none
          | some (m, b3) => some ((k, f2, v) :: m, b3)

/-- MyLfuCache::updateMinFreq — seed minFreq_ with INT8_MAX (127), take the
minimum over the keys of non-empty buckets, and map a final 127 to the
fallback 1.  (The source also skips null bucket pointers; no surviving state
of the embedding holds one.) -/
def updateMinFreqCalc {Key : Type} (b : List (Int × List Key)) : Int :=
  let m := b.foldl (fun acc p => if !p.2.isEmpty then min acc p.1 else acc) 127
  if m = 127 then 1 else m

/-- MyLfuCache::handleOverMaxAverageNum — nothing to do on an empty map;
otherwise run the rebalancing pass over every live entry and recompute
minFreq_. -/
def handleOverMaxAverageNum {Key Value : Type} [DecidableEq Key]
    (s : LfuState Key Value) : Option (LfuState Key Value) :=
  if s.nodeMap.isEmpty then some s
  else
    match rebalanceEntries s.maxAverageNum s.nodeMap s.freqToFreqList with
    | none => none
    | some (m, b) =>
        some { s with nodeMap := m, freqToFreqList := b, minFreq := updateMinFreqCalc b }

/-- MyLfuCache::addFreqNum — bump curTotalNum_, recompute curAverageNum_
(0 on an empty map), and rebalance when the average exceeds
maxAverageNum_. -/
def addFreqNum {Key Value : Type} [DecidableEq Key] (s : LfuState Key Value) :
    Option (LfuState Key Value) :=
  let t := s.curTotalNum + 1
  let avg := if s.nodeMap.isEmpty then 0 else cppAvg t s.nodeMap.length
  let s1 := { s with curTotalNum := t, curAverageNum := avg }
  if s1.maxAverageNum < avg then handleOverMaxAverageNum s1 else some s1

/-- MyLfuCache::decreaseFreqNum — subtract an evicted node's frequency from
curTotalNum_ and recompute curAverageNum_. -/
def decreaseFreqNum {Key Value : Type} (num : Int) (s : LfuState Key Value) :
    LfuState Key Value :=
  let t := s.curTotalNum - num
  { s with curTotalNum := t,
           curAverageNum := if s.nodeMap.isEmpty then 0 else cppAvg t s.nodeMap.length }

/-- MyLfuCache::getInternal on the node the caller found under k: unlink from
the current bucket, bump the node's frequency, append to the next bucket; if
the new frequency is minFreq_+1 and the minFreq_ bucket is now empty, bump
minFreq_ (reading the minFreq_ bucket through operator[], a crash when it was
never allocated); finally run addFreqNum. -/
def getInternal {Key Value : Type} [DecidableEq Key] (k : Key)
    (s : LfuState Key Value) : Option (LfuState Key Value) :=
  match lookupAssoc s.nodeMap k with
  | none => none
  | some (f, _) =>
      match removeFromFreqList s.freqToFreqList k f with
      | none => none
      | some b1 =>
          let f1 := f + 1
          let m1 := setNodeFreq s.nodeMap k f1
          let b2 := addToFreqList b1 k f1
          let mf? : Option Int :=
            if f1 = s.minFreq + 1 then
              match lookupAssoc b2 s.minFreq with
              | none => none
              | some l => some (if l.isEmpty then s.minFreq + 1 else s.minFreq)
            else some s.minFreq
          match mf? with
          | none => none
          | some mf => addFreqNum { s with nodeMap := m1, freqToFreqList := b2, minFreq := mf }

/-- MyLfuCache::kickOut — read the front of the minFreq_ bucket.  A bucket
never allocated is a null pointer (crash).  An allocated but empty bucket
makes getFirstNode return the tail sentinel: a default-constructed node with
freq 1 and a default-initialized key, whose key is erased from the map (for a
class-type Key this reads its default value), whose unlink is a no-op (the
sentinel's next pointer is null, but reaching Freqlist::remove still goes
through operator[] on frequency 1), and whose frequency 1 is subtracted from
the counters.  Otherwise evict the front node: erase it from the map, unlink
it from its bucket and subtract its frequency. -/
def kickOut {Key Value : Type} [DecidableEq Key] [Inhabited Key]
    (s : LfuState Key Value) : Option (LfuState Key Value) :=
  match lookupAssoc s.freqToFreqList s.minFreq with
  | none => none
  | some [] =>
      let m1 := eraseAssoc s.nodeMap (default : Key)
      match lookupAssoc s.freqToFreqList (1 : Int) with
      | none => none
      | some _ => some (decreaseFreqNum 1 { s with nodeMap := m1 })
  | some (k :: _) =>
      match lookupAssoc s.nodeMap k with
      | none => none
      | some (f, _) =>
          let m1 := eraseAssoc s.nodeMap k
          match removeFromFreqList s.freqToFreqList k f with
          | none => none
          | some b1 => some (decreaseFreqNum f { s with nodeMap := m1, freqToFreqList := b1 })

/-- MyLfuCache::putInternal — if the map is at or above capacity, kick a node
out first; then record the new node (constructed with frequency 1) in the map
and append it to bucket 1.  The source never touches minFreq_ here. -/
def putInternal {Key Value : Type} [DecidableEq Key] [Inhabited Key] (k : Key) (v : Value)
    (s : LfuState Key Value) : Option (LfuState Key Value) :=
  let s1? := if (s.nodeMap.length : Int) ≥ s.capacity then kickOut s else some s
  match s1? with
  | none => none
  | some s1 =>
      some { s1 with nodeMap := s1.nodeMap ++ [(k, (1 : Int), v)],
                     freqToFreqList := addToFreqList s1.freqToFreqList k 1 }

/-- MyLfuCache::put — disabled for capacity_ <= 0; on an existing key write
the value through the node and treat it as an access; otherwise admit the
key. -/
def lfuPut {Key Value : Type} [DecidableEq Key] [Inhabited Key] (k : Key) (v : Value)
    (s : LfuState Key Value) : Option (LfuState Key Value) :=
  if s.capacity ≤ 0 then some s
  else
    match lookupAssoc s.nodeMap k with
    | some _ => getInternal k { s with nodeMap := setNodeValue s.nodeMap k v }
    | none => putInternal k v s

/-- MyLfuCache::get (bool form) — on a hit read the value first, then count
the access through getInternal; on a miss report not-found and leave the
state alone. -/
def lfuGet {Key Value : Type} [DecidableEq Key] [Inhabited Key] (k : Key)
    (s : LfuState Key Value) : Option (Option Value × LfuState Key Value) :=
  match lookupAssoc s.nodeMap k with
  | none => some (none, s)
  | some (_, v) =>
      match getInternal k s with
      | none => none
      | some s1 => some (some v, s1)

/-- MyLfuCache::purge — clear nodeMap_ and freqToFreqList_; the counters
(minFreq_, curAverageNum_, curTotalNum_) are not touched. -/
def lfuPurge {Key Value : Type} (s : LfuState Key Value) : LfuState Key Value :=
  { s with nodeMap := [], freqToFreqList := [] }

/-- One public LFU call. -/
inductive LfuOp (Key Value : Type) where
  | put : Key → Value → LfuOp Key Value
  | get : Key → LfuOp Key Value

/-- Apply one public LFU call (none = the call crashed on a null bucket). -/
def lfuStep {Key Value : Type} [DecidableEq Key] [Inhabited Key] :
    LfuOp Key Value → LfuState Key Value → Option (LfuState Key Value)
  | .put k v, s => lfuPut k v s
  | .get k, s =>
      match lfuGet k s with
      | none => none
      | some p => some p.2

/-- Run a sequence of public LFU calls, stopping at a crash. -/
def lfuRun {Key Value : Type} [DecidableEq Key] [Inhabited Key] :
    List (LfuOp Key Value) → LfuState Key Value → Option (LfuState Key Value)
  | [], s => some s
  | op :: ops, s =>
      match lfuStep op s with
      | none => none
      | some s1 => lfuRun ops s1

/-- The condition under which one hit (put on an existing key, or a successful
get) ends in the rebalancing pass of handleOverMaxAverageNum: the key is
resident and the updated average exceeds maxAverageNum_. -/
def triggersRebalance {Key Value : Type} [DecidableEq Key] :
    LfuOp Key Value → LfuState Key Value → Bool
  | .put k _, s =>
      (lookupAssoc s.nodeMap k).isSome &&
        decide (s.maxAverageNum < cppAvg (s.curTotalNum + 1) s.nodeMap.length)
  | .get k, s =>
      (lookupAssoc s.nodeMap k).isSome &&
        decide (s.maxAverageNum < cppAvg (s.curTotalNum + 1) s.nodeMap.length)

/-! ## Concrete runs used by the claim theorems -/

/-- Concrete key. -/
def kA : String := "a"

/-- Concrete key. -/
def kB : String := "b"

/-- Concrete key. -/
def kC : String := "c"

/-- Concrete key. -/
def kD : String := "d"

/-- Concrete key. -/
def kX : String := "x"

/-- Concrete value. -/
def vA : String := "A"

/-- Concrete value. -/
def vB : String := "B"

/-- Concrete value. -/
def vC : String := "C"

/-- Concrete value. -/
def vD : String := "D"

/-- Concrete value. -/
def vV : String := "v"

/-- Scenario A of the spec: put(1,A), put(2,B), get(1), put(3,C) on an LRU of
capacity 2. -/
def scenarioAOps : List (LruOp Nat String) :=
  [LruOp.put 1 vA, LruOp.put 2 vB, LruOp.get 1, LruOp.put 3 vC]

/-- The K-promotion state after put(x, v) on MyKLruCache(3, 3, k = 2). -/
def kpromoState : KLruState String := klruPut kX vV (klruInit 3 3 2)

/-- An LFU run that first lets a rebalance install a real minFreq_ (7), then
evicts the only entry at that frequency and keeps inserting: put(a), 11
accesses of a, then put(b), put(c), put(d) on MyLfuCache(2, 10). -/
def lfuOverfillOps : List (LfuOp String String) :=
  LfuOp.put kA vA ::
    (List.replicate 11 (LfuOp.get kA) ++ [LfuOp.put kB vB, LfuOp.put kC vC, LfuOp.put kD vD])

/-- An LFU run whose rebalance leaves its only entry at frequency exactly 127:
put(1), then 251 accesses of it on MyLfuCache(2, 250). -/
def lfuSentinelOps : List (LfuOp Nat Nat) :=
  LfuOp.put 1 1 :: List.replicate 251 (LfuOp.get 1)

/-- A short LFU run that leaves nonzero counters: put(a) then get(a) on
MyLfuCache(2, 10). -/
def lfuShortOps : List (LfuOp String String) :=
  [LfuOp.put kA vA, LfuOp.get kA]

/-! ## Helper lemmas -/

theorem lookupAssoc_eraseAssoc {α β : Type} [DecidableEq α] (k0 : α) :
    ∀ (l : List (α × β)) (k : α),
      lookupAssoc (eraseAssoc l k0) k = if k = k0 then none else lookupAssoc l k := by
  intro l
  induction l with
  | nil => intro k; simp [eraseAssoc, lookupAssoc]
  | cons e t ih =>
      intro k
      obtain ⟨a, b⟩ := e
      simp only [eraseAssoc]
      by_cases h0 : a = k0
      · rw [if_pos h0]
        subst h0
        by_cases hk : k = a
        · subst hk
          simp [ih]
        · have ha2 : ¬ a = k := fun h => hk h.symm
          simp [lookupAssoc, ih, hk, ha2]
      · rw [if_neg h0]
        by_cases hk : k = a
        · subst hk
          simp [lookupAssoc, h0]
        · have ha2 : ¬ a = k := fun h => hk h.symm
          simp [lookupAssoc, ha2, ih]

theorem lookupAssoc_append_of_some {α β : Type} [DecidableEq α] {l : List (α × β)} {k : α}
    {y : β} (l2 : List (α × β)) (h : lookupAssoc l k = some y) :
    lookupAssoc (l ++ l2) k = some y := by
  induction l with
  | nil => simp [lookupAssoc] at h
  | cons e t ih =>
      obtain ⟨a, b⟩ := e
      by_cases hk : a = k
      · simp [lookupAssoc, hk] at h ⊢
        exact h
      · simp [lookupAssoc, hk] at h ⊢
        exact ih h

theorem lookupAssoc_append_of_none {α β : Type} [DecidableEq α] {l : List (α × β)} {k : α}
    (l2 : List (α × β)) (h : lookupAssoc l k = none) :
    lookupAssoc (l ++ l2) k = lookupAssoc l2 k := by
  induction l with
  | nil => simp [lookupAssoc]
  | cons e t ih =>
      obtain ⟨a, b⟩ := e
      by_cases hk : a = k
      · simp [lookupAssoc, hk] at h
      · simp [lookupAssoc, hk] at h ⊢
        exact ih h

theorem lookupAssoc_setNodeFreq {K V : Type} [DecidableEq K] (k0 : K) (f0 : Int) :
    ∀ (m : List (K × Int × V)) (k : K),
      lookupAssoc (setNodeFreq m k0 f0) k =
        (lookupAssoc m k).map fun p => if k = k0 then (f0, p.2) else p := by
  intro m
  induction m with
  | nil => intro k; simp [setNodeFreq, lookupAssoc]
  | cons e t ih =>
      intro k
      obtain ⟨a, p⟩ := e
      simp only [setNodeFreq]
      by_cases h0 : a = k0
      · rw [if_pos h0]
        subst h0
        by_cases hk : a = k
        · subst hk
          simp [lookupAssoc]
        · have hk2 : ¬ k = a := fun h => hk h.symm
          simp [lookupAssoc, hk, hk2, ih]
      · rw [if_neg h0]
        by_cases hk : a = k
        · subst hk
          simp [lookupAssoc, h0]
        · simp [lookupAssoc, hk, ih]

theorem lookupAssoc_setNodeValue {K V : Type} [DecidableEq K] (k0 : K) (v0 : V) :
    ∀ (m : List (K × Int × V)) (k : K),
      lookupAssoc (setNodeValue m k0 v0) k =
        (lookupAssoc m k).map fun p => if k = k0 then (p.1, v0) else p := by
  intro m
  induction m with
  | nil => intro k; simp [setNodeValue, lookupAssoc]
  | cons e t ih =>
      intro k
      obtain ⟨a, p⟩ := e
      simp only [setNodeValue]
      by_cases h0 : a = k0
      · rw [if_pos h0]
        subst h0
        by_cases hk : a = k
        · subst hk
          simp [lookupAssoc]
        · have hk2 : ¬ k = a := fun h => hk h.symm
          simp [lookupAssoc, hk, hk2, ih]
      · rw [if_neg h0]
        by_cases hk : a = k
        · subst hk
          simp [lookupAssoc, h0]
        · simp [lookupAssoc, hk, ih]

theorem length_setNodeFreq {K V : Type} [DecidableEq K] (k0 : K) (f0 : Int) :
    ∀ m : List (K × Int × V), (setNodeFreq m k0 f0).length = m.length := by
  intro m
  induction m with
  | nil => rfl
  | cons e t ih =>
      obtain ⟨a, p⟩ := e
      simp [setNodeFreq, ih]

theorem length_setNodeValue {K V : Type} [DecidableEq K] (k0 : K) (v0 : V) :
    ∀ m : List (K × Int × V), (setNodeValue m k0 v0).length = m.length := by
  intro m
  induction m with
  | nil => rfl
  | cons e t ih =>
      obtain ⟨a, p⟩ := e
      simp [setNodeValue, ih]

theorem isEmpty_setNodeFreq {K V : Type} [DecidableEq K] (k0 : K) (f0 : Int)
    (m : List (K × Int × V)) : (setNodeFreq m k0 f0).isEmpty = m.isEmpty := by
  cases m with
  | nil => rfl
  | cons e t => obtain ⟨a, p⟩ := e; rfl

theorem isEmpty_setNodeValue {K V : Type} [DecidableEq K] (k0 : K) (v0 : V)
    (m : List (K × Int × V)) : (setNodeValue m k0 v0).isEmpty = m.isEmpty := by
  cases m with
  | nil => rfl
  | cons e t => obtain ⟨a, p⟩ := e; rfl

theorem lookupAssoc_isEmpty_false {α β : Type} [DecidableEq α] {l : List (α × β)} {k : α}
    {y : β} (h : lookupAssoc l k = some y) : l.isEmpty = false := by
  cases l with
  | nil => simp [lookupAssoc] at h
  | cons e t => rfl

theorem clampFreq_one_le (a f : Int) : 1 ≤ clampFreq a f := by
  simp only [clampFreq]
  split <;> omega

theorem lookupAssoc_mapClamp {K V : Type} [DecidableEq K] (a : Int) :
    ∀ (l : List (K × Int × V)) (k : K),
      lookupAssoc (l.map fun e => (e.1, clampFreq a e.2.1, e.2.2)) k =
        (lookupAssoc l k).map fun p => (clampFreq a p.1, p.2) := by
  intro l
  induction l with
  | nil => intro k; simp [lookupAssoc]
  | cons e t ih =>
      intro k
      obtain ⟨b, p⟩ := e
      by_cases hk : b = k
      · simp [lookupAssoc, hk]
      · simp [lookupAssoc, hk, ih]

theorem rebalanceEntries_map {K V : Type} [DecidableEq K] (a : Int) :
    ∀ (l : List (K × Int × V)) (b b' : List (Int × List K)) (m : List (K × Int × V)),
      rebalanceEntries a l b = some (m, b') →
        m = l.map fun e => (e.1, clampFreq a e.2.1, e.2.2) := by
  intro l
  induction l with
  | nil =>
      intro b b' m h
      simp [rebalanceEntries] at h
      obtain ⟨hm, hb⟩ := h
      subst hm
      rfl
  | cons e t ih =>
      intro b b' m h
      obtain ⟨k, f, v⟩ := e
      rw [rebalanceEntries] at h
      cases hrem : removeFromFreqList b k f with
      | none => rw [hrem] at h; simp at h
      | some b1 =>
          rw [hrem] at h
          simp only at h
          cases hrec : rebalanceEntries a t (addToFreqList b1 k (clampFreq a f)) with
          | none => rw [hrec] at h; simp at h
          | some p =>
              obtain ⟨m2, b3⟩ := p
              rw [hrec] at h
              simp only [Option.some.injEq, Prod.mk.injEq] at h
              obtain ⟨hm, _⟩ := h
              rw [← hm, List.map_cons]
              rw [ih _ _ _ hrec]

theorem handle_lookup {K V : Type} [DecidableEq K] (s s' : LfuState K V)
    (h : handleOverMaxAverageNum s = some s') (k : K) :
    lookupAssoc s'.nodeMap k =
      (lookupAssoc s.nodeMap k).map fun p => (clampFreq s.maxAverageNum p.1, p.2) := by
  unfold handleOverMaxAverageNum at h
  by_cases he : s.nodeMap.isEmpty
  · rw [if_pos he] at h
    have hs : s = s' := Option.some.inj h
    have hnil : s.nodeMap = [] := List.isEmpty_iff.mp he
    rw [← hs, hnil]
    rfl
  · rw [if_neg he] at h
    cases hr : rebalanceEntries s.maxAverageNum s.nodeMap s.freqToFreqList with
    | none => rw [hr] at h; simp at h
    | some p =>
        obtain ⟨m, b⟩ := p
        rw [hr] at h
        have hs' := (Option.some.inj h).symm
        rw [hs']
        simp only
        rw [rebalanceEntries_map _ _ _ _ _ hr]
        exact lookupAssoc_mapClamp _ _ _

theorem addFreqNum_lookup {K V : Type} [DecidableEq K] (s s' : LfuState K V)
    (h : addFreqNum s = some s') (hne : s.nodeMap.isEmpty = false) (k : K) :
    lookupAssoc s'.nodeMap k =
      if s.maxAverageNum < cppAvg (s.curTotalNum + 1) s.nodeMap.length then
        (lookupAssoc s.nodeMap k).map fun p => (clampFreq s.maxAverageNum p.1, p.2)
      else lookupAssoc s.nodeMap k := by
  unfold addFreqNum at h
  rw [hne] at h
  simp only [Bool.false_eq_true, if_false] at h
  by_cases hc : s.maxAverageNum < cppAvg (s.curTotalNum + 1) s.nodeMap.length
  · rw [if_pos hc] at h ⊢
    exact handle_lookup _ _ h k
  · rw [if_neg hc] at h ⊢
    have hs' := (Option.some.inj h).symm
    rw [hs']

theorem getInternal_lookup {K V : Type} [DecidableEq K] (k0 : K) (s s' : LfuState K V)
    (f0 : Int) (v0 : V) (hk0 : lookupAssoc s.nodeMap k0 = some (f0, v0))
    (hgi : getInternal k0 s = some s') (k : K) :
    lookupAssoc s'.nodeMap k =
      if s.maxAverageNum < cppAvg (s.curTotalNum + 1) s.nodeMap.length then
        (lookupAssoc (setNodeFreq s.nodeMap k0 (f0 + 1)) k).map
          fun p => (clampFreq s.maxAverageNum p.1, p.2)
      else lookupAssoc (setNodeFreq s.nodeMap k0 (f0 + 1)) k := by
  unfold getInternal at hgi
  rw [hk0] at hgi
  simp only at hgi
  cases hrem : removeFromFreqList s.freqToFreqList k0 f0 with
  | none => rw [hrem] at hgi; simp at hgi
  | some b1 =>
      rw [hrem] at hgi
      simp only at hgi
      have hne : s.nodeMap.isEmpty = false := lookupAssoc_isEmpty_false hk0
      by_cases hcmin : f0 + 1 = s.minFreq + 1
      · rw [if_pos hcmin] at hgi
        cases hb : lookupAssoc (addToFreqList b1 k0 (f0 + 1)) s.minFreq with
        | none => rw [hb] at hgi; simp at hgi
        | some l =>
            rw [hb] at hgi
            simp only at hgi
            have := addFreqNum_lookup _ _ hgi (by rw [isEmpty_setNodeFreq]; exact hne) k
            rw [length_setNodeFreq] at this
            exact this
      · rw [if_neg hcmin] at hgi
        simp only at hgi
        have := addFreqNum_lookup _ _ hgi (by rw [isEmpty_setNodeFreq]; exact hne) k
        rw [length_setNodeFreq] at this
        exact this

theorem kickOut_nodeMap {K V : Type} [DecidableEq K] [Inhabited K] (s s' : LfuState K V)
    (h : kickOut s = some s') : ∃ k0, s'.nodeMap = eraseAssoc s.nodeMap k0 := by
  unfold kickOut at h
  cases h1 : lookupAssoc s.freqToFreqList s.minFreq with
  | none => rw [h1] at h; simp at h
  | some l =>
      rw [h1] at h
      cases l with
      | nil =>
          simp only at h
          cases h2 : lookupAssoc s.freqToFreqList (1 : Int) with
          | none => rw [h2] at h; simp at h
          | some l1 =>
              rw [h2] at h
              have hs' := (Option.some.inj h).symm
              exact ⟨default, by rw [hs']; rfl⟩
      | cons hd tl =>
          simp only at h
          cases h2 : lookupAssoc s.nodeMap hd with
          | none => rw [h2] at h; simp at h
          | some p =>
              rw [h2] at h
              simp only at h
              cases h3 : removeFromFreqList s.freqToFreqList hd p.1 with
              | none => rw [h3] at h; simp at h
              | some b1 =>
                  rw [h3] at h
                  have hs' := (Option.some.inj h).symm
                  exact ⟨hd, by rw [hs']; rfl⟩

theorem putInternal_nodeMap {K V : Type} [DecidableEq K] [Inhabited K] (k : K) (v : V)
    (s s' : LfuState K V) (h : putInternal k v s = some s') :
    (∃ k0, s'.nodeMap = eraseAssoc s.nodeMap k0 ++ [(k, (1 : Int), v)]) ∨
      s'.nodeMap = s.nodeMap ++ [(k, (1 : Int), v)] := by
  unfold putInternal at h
  by_cases hcap : (s.nodeMap.length : Int) ≥ s.capacity
  · rw [if_pos hcap] at h
    cases hko : kickOut s with
    | none => rw [hko] at h; simp at h
    | some s1 =>
        rw [hko] at h
        simp only at h
        have hs' := (Option.some.inj h).symm
        obtain ⟨k0, hk0⟩ := kickOut_nodeMap _ _ hko
        left
        exact ⟨k0, by rw [hs']; simp only; rw [hk0]⟩
  · rw [if_neg hcap] at h
    simp only at h
    have hs' := (Option.some.inj h).symm
    right
    rw [hs']

theorem getInternal_freq {K V : Type} [DecidableEq K] (k0 : K) (t s' : LfuState K V)
    (f0 : Int) (v0 : V) (hk0 : lookupAssoc t.nodeMap k0 = some (f0, v0))
    (hgi : getInternal k0 t = some s') (k : K) :
    (lookupAssoc s'.nodeMap k).map Prod.fst =
      if t.maxAverageNum < cppAvg (t.curTotalNum + 1) t.nodeMap.length then
        (lookupAssoc t.nodeMap k).map fun p =>
          clampFreq t.maxAverageNum (if k = k0 then f0 + 1 else p.1)
      else (lookupAssoc t.nodeMap k).map fun p => if k = k0 then f0 + 1 else p.1 := by
  have h := getInternal_lookup k0 t s' f0 v0 hk0 hgi k
  rw [h]
  by_cases hc : t.maxAverageNum < cppAvg (t.curTotalNum + 1) t.nodeMap.length
  · rw [if_pos hc, if_pos hc, lookupAssoc_setNodeFreq]
    cases lookupAssoc t.nodeMap k with
    | none => rfl
    | some q => by_cases hkk : k = k0 <;> simp [hkk]
  · rw [if_neg hc, if_neg hc, lookupAssoc_setNodeFreq]
    cases lookupAssoc t.nodeMap k with
    | none => rfl
    | some q => by_cases hkk : k = k0 <;> simp [hkk]

theorem lfuStep_freq_mono {K V : Type} [DecidableEq K] [Inhabited K]
    (op : LfuOp K V) (s s' : LfuState K V)
    (hwf : ∀ (k : K) (f : Int) (v : V), lookupAssoc s.nodeMap k = some (f, v) → 1 ≤ f)
    (hstep : lfuStep op s = some s')
    (k : K) (f f' : Int) (v v' : V)
    (hk : lookupAssoc s.nodeMap k = some (f, v))
    (hk' : lookupAssoc s'.nodeMap k = some (f', v')) :
    1 ≤ f' ∧ (triggersRebalance op s = false → f ≤ f') := by
  cases op with
  | put k0 v0 =>
      simp only [lfuStep] at hstep
      unfold lfuPut at hstep
      by_cases hcap : s.capacity ≤ 0
      · rw [if_pos hcap] at hstep
        have hs := Option.some.inj hstep
        rw [← hs, hk] at hk'
        have h2 := Option.some.inj hk'
        have hf : f = f' := congrArg Prod.fst h2
        constructor
        · rw [← hf]; exact hwf k f v hk
        · intro _; omega
      · rw [if_neg hcap] at hstep
        cases hl0 : lookupAssoc s.nodeMap k0 with
        | some p =>
            obtain ⟨f0, w0⟩ := p
            rw [hl0] at hstep
            dsimp only at hstep
            have hkv : lookupAssoc (setNodeValue s.nodeMap k0 v0) k0 = some (f0, v0) := by
              rw [lookupAssoc_setNodeValue, hl0]; simp
            have hchar := getInternal_freq k0 _ s' f0 v0 hkv hstep k
            dsimp only at hchar
            rw [length_setNodeValue, hk', lookupAssoc_setNodeValue, hk] at hchar
            by_cases hcond : s.maxAverageNum < cppAvg (s.curTotalNum + 1) s.nodeMap.length

            · rw [if_pos hcond] at hchar
              by_cases hkk : k = k0
              · simp [hkk] at hchar
                constructor
                · rw [hchar]; exact clampFreq_one_le _ _
                · intro htf
                  rw [triggersRebalance, hl0] at htf
                  simp [hcond] at htf
              · simp [hkk] at hchar
                constructor
                · rw [hchar]; exact clampFreq_one_le _ _
                · intro htf
                  rw [triggersRebalance, hl0] at htf
                  simp [hcond] at htf
            · rw [if_neg hcond] at hchar
              by_cases hkk : k = k0
              · simp [hkk] at hchar
                have hff0 : f = f0 := by
                  rw [hkk, hl0] at hk
                  have := Option.some.inj hk
                  exact (congrArg Prod.fst this).symm
                have h1f : 1 ≤ f := hwf k f v hk
                constructor
                · omega
                · intro _; omega
              · simp [hkk] at hchar
                have h1f : 1 ≤ f := hwf k f v hk
                constructor
                · omega
                · intro _; omega
        | none =>
            rw [hl0] at hstep
            dsimp only at hstep
            have hkk : ¬ k = k0 := by
              intro e; rw [e, hl0] at hk; exact absurd hk (by simp)
            have hff : f = f' := by
              rcases putInternal_nodeMap k0 v0 s s' hstep with ⟨k1, hmap⟩ | hmap
              · rw [hmap] at hk'
                cases hE : lookupAssoc (eraseAssoc s.nodeMap k1) k with
                | some y =>
                    rw [lookupAssoc_append_of_some _ hE] at hk'
                    rw [lookupAssoc_eraseAssoc] at hE
                    by_cases hk1 : k = k1
                    · rw [if_pos hk1] at hE; exact absurd hE (by simp)
                    · rw [if_neg hk1, hk] at hE
                      have h1 := Option.some.inj hE
                      have h2 := Option.some.inj hk'
                      rw [← h1] at h2
                      exact congrArg Prod.fst h2
                | none =>
                    rw [lookupAssoc_append_of_none _ hE] at hk'
                    have hne : ¬ k0 = k := fun h => hkk h.symm
                    simp [lookupAssoc, hne] at hk'
              · rw [hmap, lookupAssoc_append_of_some _ hk] at hk'
                have h2 := Option.some.inj hk'
                exact congrArg Prod.fst h2
            constructor
            · rw [← hff]; exact hwf k f v hk
            · intro _; omega
  | get k0 =>
      simp only [lfuStep] at hstep
      unfold lfuGet at hstep
      cases hl0 : lookupAssoc s.nodeMap k0 with
      | none =>
          rw [hl0] at hstep
          dsimp only at hstep
          have hs := Option.some.inj hstep
          rw [← hs, hk] at hk'
          have h2 := Option.some.inj hk'
          have hf : f = f' := congrArg Prod.fst h2
          constructor
          · rw [← hf]; exact hwf k f v hk
          · intro _; omega
      | some p =>
          obtain ⟨f0, w0⟩ := p
          rw [hl0] at hstep
          dsimp only at hstep
          cases hgi : getInternal k0 s with
          | none => rw [hgi] at hstep; simp at hstep
          | some s1 =>
              rw [hgi] at hstep
              dsimp only at hstep
              have hs := Option.some.inj hstep
              rw [← hs] at hk'
              have hchar := getInternal_freq k0 s s1 f0 w0 hl0 hgi k
              rw [hk', hk] at hchar
              by_cases hcond : s.maxAverageNum < cppAvg (s.curTotalNum + 1) s.nodeMap.length
              · rw [if_pos hcond] at hchar
                by_cases hkk : k = k0
                · simp [hkk] at hchar
                  constructor
                  · rw [hchar]; exact clampFreq_one_le _ _
                  · intro htf
                    rw [triggersRebalance, hl0] at htf
                    simp [hcond] at htf
                · simp [hkk] at hchar
                  constructor
                  · rw [hchar]; exact clampFreq_one_le _ _
                  · intro htf
                    rw [triggersRebalance, hl0] at htf
                    simp [hcond] at htf
              · rw [if_neg hcond] at hchar
                by_cases hkk : k = k0
                · simp [hkk] at hchar
                  have hff0 : f = f0 := by
                    rw [hkk, hl0] at hk
                    have := Option.some.inj hk
                    exact (congrArg Prod.fst this).symm
                  have h1f : 1 ≤ f := hwf k f v hk
                  constructor
                  · omega
                  · intro _; omega
                · simp [hkk] at hchar
                  have h1f : 1 ≤ f := hwf k f v hk
                  constructor
                  · omega
                  · intro _; omega

theorem lfuStep_freqs_ge_one {K V : Type} [DecidableEq K] [Inhabited K]
    (op : LfuOp K V) (s s' : LfuState K V)
    (hwf : ∀ (k : K) (f : Int) (v : V), lookupAssoc s.nodeMap k = some (f, v) → 1 ≤ f)
    (hstep : lfuStep op s = some s') :
    ∀ (k : K) (f' : Int) (v' : V), lookupAssoc s'.nodeMap k = some (f', v') → 1 ≤ f' := by
  have hit : ∀ (k0 : K) (t : LfuState K V) (f0 : Int) (v0 : V),
      lookupAssoc t.nodeMap k0 = some (f0, v0) → 1 ≤ f0 →
      (∀ (k : K) (f : Int) (v : V), lookupAssoc t.nodeMap k = some (f, v) → 1 ≤ f) →
      getInternal k0 t = some s' →
      ∀ (k : K) (f' : Int) (v' : V), lookupAssoc s'.nodeMap k = some (f', v') → 1 ≤ f' := by
    intro k0 t f0 v0 hk0 h1f0 hwt hgi k f' v' hk'
    have hchar := getInternal_freq k0 t s' f0 v0 hk0 hgi k
    rw [hk'] at hchar
    by_cases hcond : t.maxAverageNum < cppAvg (t.curTotalNum + 1) t.nodeMap.length
    · rw [if_pos hcond] at hchar
      cases hsk : lookupAssoc t.nodeMap k with
      | none => rw [hsk] at hchar; simp at hchar
      | some q =>
          rw [hsk] at hchar
          simp at hchar
          rw [hchar]
          exact clampFreq_one_le _ _
    · rw [if_neg hcond] at hchar
      cases hsk : lookupAssoc t.nodeMap k with
      | none => rw [hsk] at hchar; simp at hchar
      | some q =>
          obtain ⟨qf, qv⟩ := q
          rw [hsk] at hchar
          simp at hchar
          by_cases hkk : k = k0
          · rw [if_pos hkk] at hchar
            omega
          · rw [if_neg hkk] at hchar
            have := hwt k qf qv hsk
            omega
  cases op with
  | put k0 v0 =>
      simp only [lfuStep] at hstep
      unfold lfuPut at hstep
      by_cases hcap : s.capacity ≤ 0
      · rw [if_pos hcap] at hstep
        have hs := Option.some.inj hstep
        rw [← hs]
        exact hwf
      · rw [if_neg hcap] at hstep
        cases hl0 : lookupAssoc s.nodeMap k0 with
        | some p =>
            obtain ⟨f0, w0⟩ := p
            rw [hl0] at hstep
            dsimp only at hstep
            have hkv : lookupAssoc (setNodeValue s.nodeMap k0 v0) k0 = some (f0, v0) := by
              rw [lookupAssoc_setNodeValue, hl0]; simp
            have hwv : ∀ (k : K) (f : Int) (v : V),
                lookupAssoc (setNodeValue s.nodeMap k0 v0) k = some (f, v) → 1 ≤ f := by
              intro k f v hkv2
              rw [lookupAssoc_setNodeValue] at hkv2
              cases hsk : lookupAssoc s.nodeMap k with
              | none => rw [hsk] at hkv2; simp at hkv2
              | some q =>
                  obtain ⟨qf, qv⟩ := q
                  rw [hsk] at hkv2
                  simp at hkv2
                  have h1 := hwf k qf qv hsk
                  by_cases hkk : k = k0
                  · rw [if_pos hkk] at hkv2
                    have := congrArg Prod.fst hkv2.symm
                    simp at this
                    omega
                  · rw [if_neg hkk] at hkv2
                    have := congrArg Prod.fst hkv2.symm
                    simp at this
                    omega
            exact hit k0 _ f0 v0 hkv (hwf k0 f0 w0 hl0) hwv hstep
        | none =>
            rw [hl0] at hstep
            dsimp only at hstep
            intro k f' v' hk'
            rcases putInternal_nodeMap k0 v0 s s' hstep with ⟨k1, hmap⟩ | hmap
            · rw [hmap] at hk'
              cases hE : lookupAssoc (eraseAssoc s.nodeMap k1) k with
              | some y =>
                  rw [lookupAssoc_append_of_some _ hE] at hk'
                  rw [lookupAssoc_eraseAssoc] at hE
                  by_cases hk1 : k = k1
                  · rw [if_pos hk1] at hE; exact absurd hE (by simp)
                  · rw [if_neg hk1] at hE
                    have h2 := Option.some.inj hk'
                    rw [h2] at hE
                    exact hwf k f' v' hE
              | none =>
                  rw [lookupAssoc_append_of_none _ hE] at hk'
                  by_cases hkk : k0 = k
                  · simp [lookupAssoc, hkk] at hk'
                    omega
                  · simp [lookupAssoc, hkk] at hk'
            · rw [hmap] at hk'
              cases hE : lookupAssoc s.nodeMap k with
              | some y =>
                  rw [lookupAssoc_append_of_some _ hE] at hk'
                  have h2 := Option.some.inj hk'
                  rw [h2] at hE
                  exact hwf k f' v' hE
              | none =>
                  rw [lookupAssoc_append_of_none _ hE] at hk'
                  by_cases hkk : k0 = k
                  · simp [lookupAssoc, hkk] at hk'
                    omega
                  · simp [lookupAssoc, hkk] at hk'
  | get k0 =>
      simp only [lfuStep] at hstep
      unfold lfuGet at hstep
      cases hl0 : lookupAssoc s.nodeMap k0 with
      | none =>
          rw [hl0] at hstep
          dsimp only at hstep
          have hs := Option.some.inj hstep
          rw [← hs]
          exact hwf
      | some p =>
          obtain ⟨f0, w0⟩ := p
          rw [hl0] at hstep
          dsimp only at hstep
          cases hgi : getInternal k0 s with
          | none => rw [hgi] at hstep; simp at hstep
          | some s1 =>
              rw [hgi] at hstep
              dsimp only at hstep
              have hs := Option.some.inj hstep
              subst hs
              exact hit k0 s f0 w0 hl0 (hwf k0 f0 w0 hl0) hwf hgi

theorem lfuRun_freqs_ge_one {K V : Type} [DecidableEq K] [Inhabited K] :
    ∀ (ops : List (LfuOp K V)) (t s : LfuState K V), lfuRun ops t = some s →
      (∀ (k : K) (f : Int) (v : V), lookupAssoc t.nodeMap k = some (f, v) → 1 ≤ f) →
      ∀ (k : K) (f : Int) (v : V), lookupAssoc s.nodeMap k = some (f, v) → 1 ≤ f := by
  intro ops
  induction ops with
  | nil =>
      intro t s h ht
      rw [lfuRun] at h
      have := Option.some.inj h
      rw [← this]
      exact ht
  | cons op ops ih =>
      intro t s h ht
      rw [lfuRun] at h
      cases hst : lfuStep op t with
      | none => rw [hst] at h; simp at h
      | some t1 =>
          rw [hst] at h
          exact ih t1 s h (lfuStep_freqs_ge_one op t t1 ht hst)

theorem listGetSet_self {α : Type} :
    ∀ (l : List α) (i : Nat) (a : α), i < l.length → (l.set i a).get? i = some a := by
  intro l
  induction l with
  | nil => intro i a h; simp at h
  | cons x t ih =>
      intro i a h
      cases i with
      | zero => rfl
      | succ n =>
          have h2 : n < t.length := by simp at h; omega
          exact ih n a h2

theorem listGetSet_other {α : Type} :
    ∀ (l : List α) (i j : Nat) (a : α), i ≠ j → (l.set i a).get? j = l.get? j := by
  intro l
  induction l with
  | nil => intro i j a _; rfl
  | cons x t ih =>
      intro i j a h
      cases i with
      | zero =>
          cases j with
          | zero => exact absurd rfl h
          | succ m => rfl
      | succ n =>
          cases j with
          | zero => rfl
          | succ m => exact ih n m a (fun e => h (by rw [e]))

/-! ## Claim theorems -/

/-- C1: against the claim, the K-promotion wrapper's access that brings the
history count to exactly k does NOT observe a promoted value.  With k = 2,
after put(x, v) the history count is 1 and x is absent from main; the get(x)
that brings the count to 2 = k writes the count back, queries main, and
reports a miss — nothing is promoted and no staged value is observed. -/
theorem c1_klru_threshold_get_misses :
    kpromoState.k = 2 ∧
    lookupAssoc kpromoState.history.map kX = some 1 ∧
    lookupAssoc kpromoState.main.map kX = none ∧
    (klruGet kX kpromoState).1 = none ∧
    lookupAssoc (klruGet kX kpromoState).2.history.map kX = some 2 ∧
    lookupAssoc (klruGet kX kpromoState).2.main.map kX = none := by
  decide

/-- C2: against the claim, the LFU index map exceeds its capacity.  On
MyLfuCache(2, 10), after put(a), eleven accesses of a (installing minFreq 7 by
rebalance), put(b) and put(c) (the latter evicting a and leaving bucket 7
empty with minFreq_ stale), the final put(d) takes kickOut's empty-bucket
path, evicts nothing, and inserts anyway: three keys remain in a capacity-2
cache. -/
theorem c2_lfu_size_exceeds_capacity :
    (lfuRun lfuOverfillOps (lfuInit 2 10) : Option (LfuState String String)).map
        (fun s => ((s.nodeMap.length : Int), s.capacity, s.nodeMap.map Prod.fst)) =
      some (3, 2, [kB, kC, kD]) ∧ ¬ ((3 : Int) ≤ 2) := by
  decide

/-- C3: against the claim, an at-capacity put of a new key does not evict from
the minFreq bucket with minFreq set to 1 — putInternal never sets minFreq_, so
it stays at the INT8_MAX sentinel (127), and the first eviction reads
freqToFreqList_[127], a bucket that was never allocated: operator[]
materializes a null pointer and getFirstNode dereferences it.  After put(a) on
MyLfuCache(1, 10), bucket 1 holds a but minFreq_ is 127 with no such bucket;
put(b) crashes instead of evicting a. -/
theorem c3_lfu_first_eviction_crashes :
    (lfuRun [LfuOp.put kA vA] (lfuInit 1 10) : Option (LfuState String String)).map
        (fun s => (s.minFreq, lookupAssoc s.freqToFreqList s.minFreq,
                   lookupAssoc s.freqToFreqList 1)) =
      some (127, none, some [kA]) ∧
    (lfuRun [LfuOp.put kA vA, LfuOp.put kB vB] (lfuInit 1 10) :
        Option (LfuState String String)) = none := by
  decide

set_option maxRecDepth 8000 in
set_option maxHeartbeats 2000000 in
/-- C4: against the claim, the minFreq recomputation after a rebalance is not
the smallest non-empty bucket key: updateMinFreq seeds its scan with the
INT8_MAX sentinel (127) and maps a final 127 to the fallback 1.  On
MyLfuCache(2, 250), put(1) followed by 251 accesses triggers one rebalance
that leaves the only entry in bucket 127 — the unique non-empty bucket — yet
minFreq_ ends at 1, not 127. -/
theorem c4_lfu_rebalance_minfreq_sentinel :
    (lfuRun lfuSentinelOps (lfuInit 2 250) : Option (LfuState Nat Nat)).map
        (fun s => (s.minFreq, (s.freqToFreqList.filter (fun p => !p.2.isEmpty)).map Prod.fst)) =
      some (1, [127]) := by
  decide

/-- C5: Scenario A holds on the LRU engine of capacity 2: put(1,A), put(2,B),
get(1), put(3,C) evicts exactly key 2 (the map held keys 1 and 2 before the
final put, and keys 1 and 3 after), then get(2) misses, get(1) returns A and
get(3) returns C. -/
theorem c5_lru_scenario_a :
    (lruRun [LruOp.put 1 vA, LruOp.put 2 vB, LruOp.get 1] (lruInit 2) :
        LruState Nat String).map = [(1, vA), (2, vB)] ∧
    (lruRun scenarioAOps (lruInit 2) : LruState Nat String).map = [(1, vA), (3, vC)] ∧
    (lruGet 2 (lruRun scenarioAOps (lruInit 2) : LruState Nat String)).1 = none ∧
    (lruGet 1 (lruGet 2 (lruRun scenarioAOps (lruInit 2) : LruState Nat String)).2).1 =
      some vA ∧
    (lruGet 3 (lruGet 1 (lruGet 2 (lruRun scenarioAOps
        (lruInit 2) : LruState Nat String)).2).2).1 = some vC := by
  decide

/-- C6: an LRU engine constructed with capacity <= 0 never holds state: from
the freshly constructed engine, every put leaves the state unchanged (for a
negative capacity by the early return; for capacity 0 the inserted node is
evicted again in the same call), every get reports not-found without change,
and hence every operation sequence leaves the engine in its initial state. -/
theorem c6_lru_nonpositive_capacity_noop (K V : Type) [DecidableEq K] (c : Int)
    (hc : c ≤ 0) :
    (∀ (k : K) (v : V), lruPut k v (lruInit c) = lruInit c) ∧
    (∀ k : K, lruGet k (lruInit c : LruState K V) = (none, lruInit c)) ∧
    (∀ ops : List (LruOp K V), lruRun ops (lruInit c) = lruInit c) := by
  have hput : ∀ (k : K) (v : V), lruPut k v (lruInit c : LruState K V) = lruInit c := by
    intro k v
    unfold lruPut
    dsimp only [lruInit]
    by_cases h0 : c < 0
    · rw [if_pos h0]
    · have hc0 : c = 0 := by omega
      subst hc0
      rw [if_neg h0]
      simp [lookupAssoc, evictLeastRecent, eraseAssoc]
  have hget : ∀ k : K, lruGet k (lruInit c : LruState K V) = (none, lruInit c) := by
    intro k
    rfl
  refine ⟨hput, hget, ?_⟩
  intro ops
  induction ops with
  | nil => rfl
  | cons op t ih =>
      rw [lruRun]
      cases op with
      | put k v =>
          simp only [lruStep]
          rw [hput k v]
          exact ih
      | get k =>
          simp only [lruStep]
          rw [hget k]
          exact ih

/-- Witness for C6 at capacity 0. -/
theorem c6_witness :
    lruPut 1 2 (lruInit 0 : LruState Nat Nat) = lruInit 0 ∧
    lruGet 1 (lruInit 0 : LruState Nat Nat) = (none, lruInit 0) ∧
    lruRun [LruOp.put 1 2, LruOp.get 1] (lruInit 0 : LruState Nat Nat) = lruInit 0 := by
  have h := c6_lru_nonpositive_capacity_noop Nat Nat 0 (by omega)
  exact ⟨h.1 1 2, h.2.1 1, h.2.2 _⟩

/-- C7 counterexample: purge does not reset the counters to their constructed
values.  After put(a) then get(a) on MyLfuCache(2, 10), purge empties the map
and the buckets but leaves curAverageNum_ at 1, while the constructor sets it
to 0 — so "all counters equal their initial constructed values" is false. -/
theorem c7_counterexample :
    (lfuRun lfuShortOps (lfuInit 2 10) : Option (LfuState String String)).map
        (fun s => ((lfuPurge s).nodeMap, (lfuPurge s).freqToFreqList,
                   (lfuPurge s).curAverageNum, (lfuPurge s).curTotalNum)) =
      some ([], [], 1, 1) ∧
    (lfuInit 2 10 : LfuState String String).curAverageNum = 0 ∧
    (lfuInit 2 10 : LfuState String String).curTotalNum = 0 ∧
    ¬ ((1 : Int) = 0) := by
  decide

/-- C7 (amended): purge clears the index map and every frequency bucket but
leaves all counters — minFreq_, curTotalNum_ (the total access count) and
curAverageNum_ (the average frequency) — and the configuration exactly as they
were before the call, resetting none of them. -/
theorem c7_purge_clears_maps_keeps_counters (K V : Type) (s : LfuState K V) :
    (lfuPurge s).nodeMap = [] ∧ (lfuPurge s).freqToFreqList = [] ∧
    (lfuPurge s).minFreq = s.minFreq ∧ (lfuPurge s).curTotalNum = s.curTotalNum ∧
    (lfuPurge s).curAverageNum = s.curAverageNum ∧
    (lfuPurge s).capacity = s.capacity ∧
    (lfuPurge s).maxAverageNum = s.maxAverageNum := by
  exact ⟨rfl, rfl, rfl, rfl, rfl, rfl, rfl⟩

/-- C8: over every run of the LFU engine from construction, every resident
entry's stored frequency is at least 1 (also immediately after a rebalance,
whose clamping keeps it at 1 or more), and across any single successful
operation that does not end in the aging rebalance, no resident entry's
frequency decreases. -/
theorem c8_lfu_frequency_monotone (K V : Type) [DecidableEq K] [Inhabited K] :
    (∀ (c m : Int) (ops : List (LfuOp K V)) (s : LfuState K V),
        lfuRun ops (lfuInit c m) = some s →
        ∀ (k : K) (f : Int) (v : V), lookupAssoc s.nodeMap k = some (f, v) → 1 ≤ f) ∧
    (∀ (op : LfuOp K V) (s s' : LfuState K V),
        (∀ (k : K) (f : Int) (v : V), lookupAssoc s.nodeMap k = some (f, v) → 1 ≤ f) →
        lfuStep op s = some s' →
        ∀ (k : K) (f f' : Int) (v v' : V),
          lookupAssoc s.nodeMap k = some (f, v) →
          lookupAssoc s'.nodeMap k = some (f', v') →
          1 ≤ f' ∧ (triggersRebalance op s = false → f ≤ f')) := by
  constructor
  · intro c m ops s hrun
    refine lfuRun_freqs_ge_one ops (lfuInit c m) s hrun ?_
    intro k f v hk
    simp [lfuInit, lookupAssoc] at hk
  · intro op s s' hwf hstep k f f' v v' hk hk'
    exact lfuStep_freq_mono op s s' hwf hstep k f f' v v' hk hk'

/-- Witness for C8: a one-put run has frequency 1 >= 1, and a rebalance-free
get moves the frequency from 1 to 2 >= 1. -/
theorem c8_witness : (1 : Int) ≤ 1 ∧ (1 : Int) ≤ 2 := by
  constructor
  · exact (c8_lfu_frequency_monotone Nat Nat).1 2 10 [LfuOp.put 1 1]
      ⟨2, 10, 127, 0, 0, [(1, 1, 1)], [(1, [1])]⟩ (by decide) 1 1 1 (by decide)
  · refine ((c8_lfu_frequency_monotone Nat Nat).2 (LfuOp.get 1)
      ⟨2, 10, 127, 0, 0, [(1, 1, 1)], [(1, [1])]⟩
      ⟨2, 10, 127, 1, 1, [(1, 2, 1)], [(1, []), (2, [1])]⟩
      ?_ (by decide) 1 1 2 1 1 (by decide) (by decide)).1
    intro k f v hk
    simp only [lookupAssoc] at hk
    by_cases h1 : (1 : Nat) = k
    · rw [if_pos h1] at hk
      have hf := congrArg Prod.fst (Option.some.inj hk)
      simp at hf
      omega
    · rw [if_neg h1] at hk
      exact absurd hk (by simp)

/-- C9: the shard index of MyHashLru is the pure function hash(key) mod
shardCount of the key alone: a put and a later get of the same key resolve to
the same shard, the put rewrites exactly that shard with the forwarded
MyKLruCache::put and leaves every other shard untouched, and the following get
returns exactly what that single shard returns. -/
theorem c9_shard_routing_deterministic (K : Type) [DecidableEq K] (h : K → Nat) (k : K)
    (v : String) (s : HashLruState K) (shard : KLruState K) (j : Nat)
    (hn : 0 < s.shards.length)
    (hsh : s.shards.get? (hashRoute h s.shards.length k) = some shard)
    (hj : j ≠ hashRoute h s.shards.length k) :
    (hashPut h k v s).shards.get? j = s.shards.get? j ∧
    (hashPut h k v s).shards.get? (hashRoute h s.shards.length k) =
      some (klruPut k v shard) ∧
    (hashGet h k (hashPut h k v s)).1 = (lruGet k (klruPut k v shard).main).1 := by
  have hlt : hashRoute h s.shards.length k < s.shards.length := Nat.mod_lt _ hn
  have hput : hashPut h k v s =
      ⟨s.shards.set (hashRoute h s.shards.length k) (klruPut k v shard)⟩ := by
    simp only [hashPut]
    rw [hsh]
  refine ⟨?_, ?_, ?_⟩
  · rw [hput]
    exact listGetSet_other _ _ _ _ (fun e => hj e.symm)
  · rw [hput]
    exact listGetSet_self _ _ _ hlt
  · rw [hput]
    simp only [hashGet, List.length_set]
    rw [listGetSet_self _ _ _ hlt]

/-- Witness for C9 with two shards, the identity hash and key 3 (shard 1). -/
theorem c9_witness :
    (hashPut (fun x => x) 3 vV ⟨[klruInit 2 2 2, klruInit 2 2 2]⟩).shards.get? 0 =
      (⟨[klruInit 2 2 2, klruInit 2 2 2]⟩ : HashLruState Nat).shards.get? 0 ∧
    (hashPut (fun x => x) 3 vV ⟨[klruInit 2 2 2, klruInit 2 2 2]⟩).shards.get?
        (hashRoute (fun x => x) 2 3) = some (klruPut 3 vV (klruInit 2 2 2)) ∧
    (hashGet (fun x => x) 3
        (hashPut (fun x => x) 3 vV ⟨[klruInit 2 2 2, klruInit 2 2 2]⟩)).1 =
      (lruGet 3 (klruPut 3 vV (klruInit 2 2 2)).main).1 := by
  exact c9_shard_routing_deterministic Nat (fun x => x) 3 vV
    ⟨[klruInit 2 2 2, klruInit 2 2 2]⟩ (klruInit 2 2 2) 0
    (by decide) (by decide) (by decide)

/-- C10: a get of a key absent from the index map returns not-found and leaves
the whole engine state — map, lists or buckets, orderings, and every counter —
exactly unchanged, for the LRU engine and the LFU engine alike. -/
theorem c10_miss_leaves_state_unchanged (K V : Type) [DecidableEq K] [Inhabited K]
    (s1 : LruState K V) (s2 : LfuState K V) (k1 k2 : K)
    (h1 : lookupAssoc s1.map k1 = none) (h2 : lookupAssoc s2.nodeMap k2 = none) :
    lruGet k1 s1 = (none, s1) ∧ lfuGet k2 s2 = some (none, s2) := by
  constructor
  · unfold lruGet
    rw [h1]
  · unfold lfuGet
    rw [h2]

/-- Witness for C10 on nonempty one-entry engines and the absent key 2. -/
theorem c10_witness :
    lruGet 2 (⟨3, [(1, 7)], [(1, 7)]⟩ : LruState Nat Nat) =
      (none, ⟨3, [(1, 7)], [(1, 7)]⟩) ∧
    lfuGet 2 (⟨3, 10, 127, 0, 0, [(1, 1, 7)], [(1, [1])]⟩ : LfuState Nat Nat) =
      some (none, ⟨3, 10, 127, 0, 0, [(1, 1, 7)], [(1, [1])]⟩) := by
  exact c10_miss_leaves_state_unchanged Nat Nat
    ⟨3, [(1, 7)], [(1, 7)]⟩ ⟨3, 10, 127, 0, 0, [(1, 1, 7)], [(1, [1])]⟩ 2 2
    (by decide) (by decide)

end MyCache
